import Mathlib

/-!
Verification of the b2 backend resilience layer (backend.go): the
backoff/jitter arithmetic, the retry executor `withBackoff`, the
reauthentication executor `withReauth`, and the resilient handle
operations built from them.

Modelling conventions:
* Durations are integer nanoseconds (`ℤ`); `time.Second = 10^9 ns`,
  `time.Millisecond = 10^6 ns`.
* Go's `float64` arithmetic inside `jitter` is modelled by exact rationals
  (`ℚ`); the final `time.Duration(f)` conversion truncates toward zero,
  modelled by `ratTrunc`.  The random draw `rand.Float64()` becomes an
  explicit parameter `r : ℚ` (uniform in `[0,1)` at call sites).
* The unbounded retry loop of `withBackoff` is modelled with explicit
  fuel; running out of fuel yields `none`, and every theorem states the
  fuel it needs.
* Effects are explicit state passing: a unit of work is a function
  `σ → Option (σ × ...)`, where the state `σ` carries the mutable world
  (session credentials, per-method raw-call counters, the closure-captured
  accumulator variables such as `bi` and `buckets`).
* The executors additionally report ghost observations (`BackoffOut`:
  the list of completed backoff waits and whether the loop ended because
  the context was cancelled); these fields record what the Go code does
  (sleeps, returning `ctx.Err()`) without altering control flow.
* The cancellation signal and the jitter draws are per-loop streams
  indexed by iteration number (`done w` / `rs w`); the Go code reads a
  shared context and a global generator, which the claims treat as
  arbitrary, so the indexing scheme is immaterial to them.
-/

namespace B2

/-- Go's `float64 → int64` conversion (`time.Duration(f)`): truncation
toward zero, on an exact rational. -/
def ratTrunc (q : ℚ) : ℤ :=
  Int.tdiv q.num q.den

/-- `jitter` from backend.go:
`f := float64(d); f /= 50; f += f * (rand.Float64() - 0.5); return time.Duration(f)`.
The draw `r` stands for `rand.Float64()`. -/
def jitter (d : ℤ) (r : ℚ) : ℤ :=
  let f : ℚ := (d : ℚ) / 50
  ratTrunc (f + f * (r - 1/2))

/-- `getBackoff` from backend.go: above `15 * time.Second` grow by jitter
only, otherwise double and add jitter of the doubled value. -/
def getBackoff (d : ℤ) (r : ℚ) : ℤ :=
  if d > 15 * 1000000000 then d + jitter d r
  else d * 2 + jitter (d * 2) r

/-- The caller-supplied cancellable context: `done w` tells whether
`ctx.Done()` wins the `select` against the timer at the `w`-th backoff
wait of the loop, and `err` is `ctx.Err()`. -/
structure Ctx (ε : Type) where
  done : ℕ → Bool
  err : ε

/-- Ghost observations of one `withBackoff` run: the error value it
returns (`none` = nil), the completed backoff waits in order, and whether
it returned because the context was cancelled during a wait. -/
structure BackoffOut (ε : Type) where
  result : Option ε
  waits : List ℤ
  cancelled : Bool
deriving DecidableEq

/-- The loop body of `withBackoff` from backend.go, with explicit fuel,
state `s`, wait index `w` and running backoff value `b`:
`final, err := f(); if final { return err };
if !ri.transient(err) { return err };
bo, ok := ri.backoff(err); if ok { backoff = bo } else { backoff = getBackoff(backoff) };
select { case <-ctx.Done(): return ctx.Err(); case <-time.After(backoff): }`. -/
def withBackoffAux {σ ε : Type} (tr : Option ε → Bool) (boC : Option ε → Option ℕ)
    (ctx : Ctx ε) (f : σ → Option (σ × Bool × Option ε)) (rs : ℕ → ℚ) :
    ℕ → σ → ℕ → ℤ → Option (σ × BackoffOut ε)
  | 0, _, _, _ => none
  | fuel + 1, s, w, b =>
    match f s with
    | none => none
    | some (s1, final, err) =>
      if final then some (s1, ⟨err, [], false⟩)
      else if tr err = false then some (s1, ⟨err, [], false⟩)
      else
        let b1 : ℤ :=
          match boC err with
          | some bo => (bo : ℤ)
          | none => getBackoff b (rs w)
        if ctx.done w then some (s1, ⟨some ctx.err, [], true⟩)
        else
          (withBackoffAux tr boC ctx f rs fuel s1 (w + 1) b1).map
            (fun q => (q.1, ⟨q.2.result, b1 :: q.2.waits, q.2.cancelled⟩))

/-- `withBackoff` from backend.go: the retry loop with the running
backoff initialised to `500 * time.Millisecond`. -/
def withBackoff {σ ε : Type} (tr : Option ε → Bool) (boC : Option ε → Option ℕ)
    (ctx : Ctx ε) (f : σ → Option (σ × Bool × Option ε)) (rs : ℕ → ℚ)
    (fuel : ℕ) (s : σ) : Option (σ × BackoffOut ε) :=
  withBackoffAux tr boC ctx f rs fuel s 0 (500 * 1000000)

/-- `withReauth` from backend.go:
`err := f(); if ri.reauth(err) { if err := ri.reauthorizeAccount(ctx); err != nil { return err }; err = f() }; return err`.
`rC` is the classifier `ri.reauth`, `reauthorize` the (stateful, possibly
fuel-limited) `ri.reauthorizeAccount`. -/
def withReauthS {σ ε : Type} (rC : Option ε → Bool)
    (reauthorize g : σ → Option (σ × Option ε)) (s : σ) : Option (σ × Option ε) :=
  match g s with
  | none => none
  | some (s1, err) =>
    if rC err then
      match reauthorize s1 with
      | none => none
      | some (s2, some re) => some (s2, some re)
      | some (s2, none) => g s2
    else some (s1, err)

/-- The running backoff values of a fresh loop: `boChain rs 0 = 500ms` is
the initial value, and the `i`-th completed wait sleeps `boChain rs (i+1)`
(no classifier override assumed). -/
def boChain (rs : ℕ → ℚ) : ℕ → ℤ
  | 0 => 500 * 1000000
  | i + 1 => getBackoff (boChain rs i) (rs i)

/-! The handle hierarchy and the raw client.

The mutable state shared by every handle (Go: the fields of `*beRoot`
reached through the `ri` pointer, plus the call history of the wrapped
raw client) is the `World`.  Each raw method draws its result from a
script indexed by a per-method call counter, which both drives the
scenarios and records how many raw calls each run performed. -/

/-- The mutable world: the Session's credential pair (`beRoot.account`,
`beRoot.key`) and one call counter per raw method of the wrapped client. -/
structure World where
  account : String
  key : String
  authCalls : ℕ
  createCalls : ℕ
  listCalls : ℕ
  deleteCalls : ℕ
  urlCalls : ℕ
  uploadCalls : ℕ
  deleteFileCalls : ℕ
deriving DecidableEq

/-- The wrapped raw client (`b2RootInterface` and the raw handle methods)
together with the classification hooks.  `ε` is the error type, `β`/`υ`/`φ`
the raw bucket / upload-url / file handle types.  Raw results are scripts
indexed by the per-method call counter.  Payload arguments of
`uploadFile` (reader, size, name, content type, hash, metadata) are
elided: they are passed through opaquely and never influence control
flow in backend.go. -/
structure RawClient (ε β υ φ : Type) where
  transient : Option ε → Bool
  reauth : Option ε → Bool
  backoff : Option ε → Option ℕ
  rawAuthorize : ℕ → Option ε
  rawCreateBucket : ℕ → Except ε β
  rawListBuckets : ℕ → Except ε (List β)
  rawName : β → String
  rawDeleteBucket : β → ℕ → Option ε
  rawGetUploadURL : β → ℕ → Except ε υ
  rawUploadFile : υ → ℕ → Except ε φ
  rawDeleteFileVersion : φ → ℕ → Option ε

/-- `beRoot`: the root handle; the mutable credential fields live in
`World`, the handle itself is identified by its address (Go pointer). -/
structure BeRoot where
  addr : ℕ
deriving DecidableEq

/-- `beBucket`: raw bucket plus the Session reference `ri` (the address
of the `beRoot` it came from). -/
structure BeBucket (β : Type) where
  b2bucket : β
  ri : ℕ
deriving DecidableEq

/-- `beURL`: raw upload url plus the Session reference `ri`. -/
structure BeURL (υ : Type) where
  b2url : υ
  ri : ℕ
deriving DecidableEq

/-- `beFile`: raw file, the upload target it came from, and the Session
reference `ri`. -/
structure BeFile (υ φ : Type) where
  b2file : φ
  url : BeURL υ
  ri : ℕ
deriving DecidableEq

section Operations

variable {ε β υ φ : Type}

/-- The `withBackoff` body of `beRoot.authorizeAccount`: raw authorize,
on success store the account/key pair into the session. -/
def authAttempt (rc : RawClient ε β υ φ) (account key : String) (w : World) :
    Option (World × Bool × Option ε) :=
  match rc.rawAuthorize w.authCalls with
  | some e => some ({ w with authCalls := w.authCalls + 1 }, false, some e)
  | none =>
    some ({ w with authCalls := w.authCalls + 1, account := account, key := key },
      true, none)

/-- `beRoot.authorizeAccount`: the raw authorize+store attempt under
`withBackoff` alone (no `withReauth`). -/
def authorizeAccount (rc : RawClient ε β υ φ) (ctx : Ctx ε) (rs : ℕ → ℚ)
    (fuel : ℕ) (account key : String) (w : World) : Option (World × Option ε) :=
  (withBackoff rc.transient rc.backoff ctx (authAttempt rc account key) rs fuel w).map
    (fun p => (p.1, p.2.result))

/-- `beRoot.reauthorizeAccount`: replay `authorizeAccount` with the
credentials currently stored in the Session. -/
def reauthorizeAccount (rc : RawClient ε β υ φ) (ctx : Ctx ε) (rs : ℕ → ℚ)
    (fuel : ℕ) (w : World) : Option (World × Option ε) :=
  authorizeAccount rc ctx rs fuel w.account w.key w

/-- Lift a world-only operation (reauthorization) to a state that also
carries a closure-captured accumulator component untouched by it. -/
def reauthLift {ε σ' : Type} (F : World → Option (World × Option ε)) :
    World × σ' → Option ((World × σ') × Option ε) :=
  fun s => (F s.1).map (fun p => ((p.1, s.2), p.2))

/-- The glue every resilient handle operation repeats at its call site
(backend.go lines 94–110 and clones): run the raw call under
`withReauth`; an error is reported non-final, success is final:
`if err := withReauth(ctx, ri, g); err != nil { return false, err }; return true, nil`. -/
def srcAttempt {σ : Type} (rC : Option ε → Bool)
    (reauthorize g : σ → Option (σ × Option ε)) :
    σ → Option (σ × Bool × Option ε) :=
  fun s =>
    (withReauthS rC reauthorize g s).map
      (fun p =>
        match p.2 with
        | some e => (p.1, false, some e)
        | none => (p.1, true, none))

/-- The same attempt as the specification words it: `final = true`
exactly when the reauth-wrapped call returns without error. -/
def specAttempt {σ : Type} (rC : Option ε → Bool)
    (reauthorize g : σ → Option (σ × Option ε)) :
    σ → Option (σ × Bool × Option ε) :=
  fun s =>
    (withReauthS rC reauthorize g s).map (fun p => (p.1, p.2.isNone, p.2))

/-- The `withReauth` body of `beRoot.createBucket`: raw createBucket; on
success overwrite the captured `bi` variable with a new `beBucket`
carrying the Session reference. -/
def createBucketG (rc : RawClient ε β υ φ) (r : BeRoot) :
    World × Option (BeBucket β) → Option ((World × Option (BeBucket β)) × Option ε) :=
  fun s =>
    match rc.rawCreateBucket s.1.createCalls with
    | .error e => some (({ s.1 with createCalls := s.1.createCalls + 1 }, s.2), some e)
    | .ok bucket =>
      some (({ s.1 with createCalls := s.1.createCalls + 1 },
        some ⟨bucket, r.addr⟩), none)

/-- `beRoot.createBucket`: `withBackoff` over `withReauth` over the raw
call; on loop error return `(nil, err)`, otherwise `(bi, nil)`. -/
def createBucket (rc : RawClient ε β υ φ) (ctx : Ctx ε) (rs : ℕ → ℚ)
    (fuel fuelR : ℕ) (r : BeRoot) (w : World) :
    Option (World × Option (BeBucket β) × Option ε) :=
  (withBackoff rc.transient rc.backoff ctx
      (srcAttempt rc.reauth (reauthLift (reauthorizeAccount rc ctx rs fuelR))
        (createBucketG rc r))
      rs fuel (w, none)).map
    (fun p =>
      match p.2.result with
      | some e => (p.1.1, none, some e)
      | none => (p.1.1, p.1.2, none))

/-- The `withReauth` body of `beRoot.listBuckets`: raw listBuckets; on
success append each raw bucket, wrapped with the Session reference, to
the captured `buckets` accumulator. -/
def listBucketsG (rc : RawClient ε β υ φ) (r : BeRoot) :
    World × List (BeBucket β) → Option ((World × List (BeBucket β)) × Option ε) :=
  fun s =>
    match rc.rawListBuckets s.1.listCalls with
    | .error e => some (({ s.1 with listCalls := s.1.listCalls + 1 }, s.2), some e)
    | .ok bs =>
      some (({ s.1 with listCalls := s.1.listCalls + 1 },
        s.2 ++ bs.map (fun b => ⟨b, r.addr⟩)), none)

/-- `beRoot.listBuckets`: composition as for `createBucket`; on loop
error return `(nil, err)`, otherwise the accumulated slice. -/
def listBuckets (rc : RawClient ε β υ φ) (ctx : Ctx ε) (rs : ℕ → ℚ)
    (fuel fuelR : ℕ) (r : BeRoot) (w : World) :
    Option (World × Option (List (BeBucket β)) × Option ε) :=
  (withBackoff rc.transient rc.backoff ctx
      (srcAttempt rc.reauth (reauthLift (reauthorizeAccount rc ctx rs fuelR))
        (listBucketsG rc r))
      rs fuel (w, [])).map
    (fun p =>
      match p.2.result with
      | some e => (p.1.1, none, some e)
      | none => (p.1.1, some p.1.2, none))

/-- `beBucket.name`: a plain passthrough to the raw bucket, with no
executor around it. -/
def BeBucket.name (rc : RawClient ε β υ φ) (b : BeBucket β) : String :=
  rc.rawName b.b2bucket

/-- The `withReauth` body of `beBucket.deleteBucket`: the raw delete. -/
def deleteBucketG (rc : RawClient ε β υ φ) (b : BeBucket β) :
    World → Option (World × Option ε) :=
  fun w =>
    some ({ w with deleteCalls := w.deleteCalls + 1 },
      rc.rawDeleteBucket b.b2bucket w.deleteCalls)

/-- `beBucket.deleteBucket`: the standard composition, returning only an
error. -/
def deleteBucket (rc : RawClient ε β υ φ) (ctx : Ctx ε) (rs : ℕ → ℚ)
    (fuel fuelR : ℕ) (b : BeBucket β) (w : World) : Option (World × Option ε) :=
  (withBackoff rc.transient rc.backoff ctx
      (srcAttempt rc.reauth (reauthorizeAccount rc ctx rs fuelR)
        (deleteBucketG rc b))
      rs fuel w).map
    (fun p => (p.1, p.2.result))

/-- The `withReauth` body of `beBucket.getUploadURL`: raw getUploadURL;
on success overwrite the captured `url` variable with a new `beURL`
carrying the creating bucket's Session reference. -/
def getUploadURLG (rc : RawClient ε β υ φ) (b : BeBucket β) :
    World × Option (BeURL υ) → Option ((World × Option (BeURL υ)) × Option ε) :=
  fun s =>
    match rc.rawGetUploadURL b.b2bucket s.1.urlCalls with
    | .error e => some (({ s.1 with urlCalls := s.1.urlCalls + 1 }, s.2), some e)
    | .ok u =>
      some (({ s.1 with urlCalls := s.1.urlCalls + 1 }, some ⟨u, b.ri⟩), none)

/-- `beBucket.getUploadURL`: the standard composition; `(nil, err)` on
failure, the captured handle on success. -/
def getUploadURL (rc : RawClient ε β υ φ) (ctx : Ctx ε) (rs : ℕ → ℚ)
    (fuel fuelR : ℕ) (b : BeBucket β) (w : World) :
    Option (World × Option (BeURL υ) × Option ε) :=
  (withBackoff rc.transient rc.backoff ctx
      (srcAttempt rc.reauth (reauthLift (reauthorizeAccount rc ctx rs fuelR))
        (getUploadURLG rc b))
      rs fuel (w, none)).map
    (fun p =>
      match p.2.result with
      | some e => (p.1.1, none, some e)
      | none => (p.1.1, p.1.2, none))

/-- The `withReauth` body of `beURL.uploadFile`: raw uploadFile; on
success overwrite the captured `file` variable with a new `beFile`
carrying the upload target and its Session reference. -/
def uploadFileG (rc : RawClient ε β υ φ) (u : BeURL υ) :
    World × Option (BeFile υ φ) → Option ((World × Option (BeFile υ φ)) × Option ε) :=
  fun s =>
    match rc.rawUploadFile u.b2url s.1.uploadCalls with
    | .error e => some (({ s.1 with uploadCalls := s.1.uploadCalls + 1 }, s.2), some e)
    | .ok fl =>
      some (({ s.1 with uploadCalls := s.1.uploadCalls + 1 },
        some ⟨fl, u, u.ri⟩), none)

/-- `beURL.uploadFile`: the standard composition; `(nil, err)` on
failure, the captured handle on success. -/
def uploadFile (rc : RawClient ε β υ φ) (ctx : Ctx ε) (rs : ℕ → ℚ)
    (fuel fuelR : ℕ) (u : BeURL υ) (w : World) :
    Option (World × Option (BeFile υ φ) × Option ε) :=
  (withBackoff rc.transient rc.backoff ctx
      (srcAttempt rc.reauth (reauthLift (reauthorizeAccount rc ctx rs fuelR))
        (uploadFileG rc u))
      rs fuel (w, none)).map
    (fun p =>
      match p.2.result with
      | some e => (p.1.1, none, some e)
      | none => (p.1.1, p.1.2, none))

/-- The `withReauth` body of `beFile.deleteFileVersion`: the raw delete. -/
def deleteFileVersionG (rc : RawClient ε β υ φ) (fl : BeFile υ φ) :
    World → Option (World × Option ε) :=
  fun w =>
    some ({ w with deleteFileCalls := w.deleteFileCalls + 1 },
      rc.rawDeleteFileVersion fl.b2file w.deleteFileCalls)

/-- `beFile.deleteFileVersion`: the standard composition, returning only
an error. -/
def deleteFileVersion (rc : RawClient ε β υ φ) (ctx : Ctx ε) (rs : ℕ → ℚ)
    (fuel fuelR : ℕ) (fl : BeFile υ φ) (w : World) : Option (World × Option ε) :=
  (withBackoff rc.transient rc.backoff ctx
      (srcAttempt rc.reauth (reauthorizeAccount rc ctx rs fuelR)
        (deleteFileVersionG rc fl))
      rs fuel w).map
    (fun p => (p.1, p.2.result))

end Operations

/-! Generic counter instrumentation for the executors: the state is a
pair (wrapped-call count, reauthorization count); the scripts `gs` and
`ra` give the result of the `k`-th wrapped call and the `k`-th
reauthorization. -/

/-- A unit of work that counts its own invocations and answers from the
script `gs`. -/
def gCount {ε : Type} (gs : ℕ → Option ε) : ℕ × ℕ → Option ((ℕ × ℕ) × Option ε) :=
  fun s => some ((s.1 + 1, s.2), gs s.1)

/-- A reauthorization that counts its own invocations and answers from
the script `ra`. -/
def raCount {ε : Type} (ra : ℕ → Option ε) : ℕ × ℕ → Option ((ℕ × ℕ) × Option ε) :=
  fun s => some ((s.1, s.2 + 1), ra s.2)

/-- A unit of work for `withBackoff` that fails with `es k` on its first
`N` invocations (reported non-final) and then succeeds (final). -/
def failNTimes {ε : Type} (es : ℕ → ε) (N : ℕ) : ℕ → Option (ℕ × Bool × Option ε) :=
  fun k =>
    if k < N then some (k + 1, false, some (es k)) else some (k + 1, true, none)

/-- The `withReauth` body the specification's composition prescribes for
`authorizeAccount` (raw authorize, storing the credentials on success),
used to compare the actual `authorizeAccount` against the claimed
`RetryExecutor ∘ ReauthExecutor` shape.  The actual code has no such
body: it never routes authorize through `withReauth`. -/
def authGSpec {ε β υ φ : Type} (rc : RawClient ε β υ φ) (account key : String) :
    World → Option (World × Option ε) :=
  fun w =>
    match rc.rawAuthorize w.authCalls with
    | some e => some ({ w with authCalls := w.authCalls + 1 }, some e)
    | none =>
      some ({ w with authCalls := w.authCalls + 1, account := account, key := key },
        none)

/-! Concrete scenarios used to instantiate the theorems. -/

/-- A fresh world: empty credentials, no raw calls made yet. -/
def w0 : World :=
  ⟨"", "", 0, 0, 0, 0, 0, 0, 0⟩

/-- A context that is never cancelled; its `ctx.Err()` value is 99. -/
def ctx0 : Ctx ℕ :=
  ⟨fun _ => false, 99⟩

/-- A jitter-draw stream that always draws 1/2. -/
def rsHalf : ℕ → ℚ :=
  fun _ => 1/2

/-- Scenario client for the composition counterexample: every error is
reauth-worthy, nothing is transient, and raw authorize fails once with
error 7 and then succeeds. -/
def rc1 : RawClient ℕ ℕ ℕ ℕ where
  transient := fun _ => false
  reauth := fun _ => true
  backoff := fun _ => none
  rawAuthorize := fun k => if k = 0 then some 7 else none
  rawCreateBucket := fun _ => .error 0
  rawListBuckets := fun _ => .error 0
  rawName := fun _ => ""
  rawDeleteBucket := fun _ _ => none
  rawGetUploadURL := fun _ _ => .error 0
  rawUploadFile := fun _ _ => .error 0
  rawDeleteFileVersion := fun _ _ => none

/-- Scenario client for the session-sharing witness: createBucket fails
twice with the transient error 7 and then yields raw bucket 5; no error
is reauth-worthy. -/
def rc9 : RawClient ℕ ℕ ℕ ℕ where
  transient := fun _ => true
  reauth := fun _ => false
  backoff := fun _ => none
  rawAuthorize := fun _ => none
  rawCreateBucket := fun k => if k < 2 then .error 7 else .ok 5
  rawListBuckets := fun _ => .error 0
  rawName := fun _ => ""
  rawDeleteBucket := fun _ _ => none
  rawGetUploadURL := fun _ _ => .error 0
  rawUploadFile := fun _ _ => .error 0
  rawDeleteFileVersion := fun _ _ => none

/-- Scenario client in which the reauth classifier also marks `nil`
reauth-worthy: raw listBuckets always yields the single bucket 5 and raw
authorize always succeeds. -/
def rc10 : RawClient ℕ ℕ ℕ ℕ where
  transient := fun _ => false
  reauth := fun _ => true
  backoff := fun _ => none
  rawAuthorize := fun _ => none
  rawCreateBucket := fun _ => .error 0
  rawListBuckets := fun _ => .ok [5]
  rawName := fun _ => ""
  rawDeleteBucket := fun _ _ => none
  rawGetUploadURL := fun _ _ => .error 0
  rawUploadFile := fun _ _ => .error 0
  rawDeleteFileVersion := fun _ _ => none

/-! Arithmetic facts about `ratTrunc`, `jitter` and `getBackoff`. -/

theorem ratTrunc_eq_floor {q : ℚ} (hq : 0 ≤ q) : ratTrunc q = ⌊q⌋ := by
  rw [ratTrunc, Rat.floor_def]
  exact Int.tdiv_eq_ediv (Rat.num_nonneg.mpr hq) (by positivity)

theorem ratTrunc_nonneg {q : ℚ} (hq : 0 ≤ q) : 0 ≤ ratTrunc q := by
  rw [ratTrunc_eq_floor hq]
  exact Int.floor_nonneg.mpr hq

theorem ratTrunc_le {q : ℚ} (hq : 0 ≤ q) : (ratTrunc q : ℚ) ≤ q := by
  rw [ratTrunc_eq_floor hq]
  exact Int.floor_le q

theorem ratTrunc_gt {q : ℚ} (hq : 0 ≤ q) : q - 1 < (ratTrunc q : ℚ) := by
  rw [ratTrunc_eq_floor hq]
  exact Int.sub_one_lt_floor q

theorem jitter_eq (d : ℤ) (r : ℚ) :
    jitter d r = ratTrunc ((d : ℚ) / 50 * (r + 1/2)) := by
  unfold jitter
  ring_nf

theorem jitter_arg_nonneg {d : ℤ} {r : ℚ} (hd : 0 ≤ d) (hr : 0 ≤ r) :
    0 ≤ (d : ℚ) / 50 * (r + 1/2) := by
  have hd : (0 : ℚ) ≤ (d : ℚ) := by exact_mod_cast hd
  positivity

theorem jitter_nonneg {d : ℤ} {r : ℚ} (hd : 0 ≤ d) (hr : 0 ≤ r) :
    0 ≤ jitter d r := by
  rw [jitter_eq]
  exact ratTrunc_nonneg (jitter_arg_nonneg hd hr)

theorem jitter_le {d : ℤ} {r : ℚ} (hd : 0 ≤ d) (hr0 : 0 ≤ r) (hr1 : r < 1) :
    (jitter d r : ℚ) ≤ 3 * (d : ℚ) / 100 := by
  rw [jitter_eq]
  have h1 : (jitter 0 0 : ℚ) = (jitter 0 0 : ℚ) := rfl
  have h2 : (ratTrunc ((d : ℚ) / 50 * (r + 1/2)) : ℚ) ≤ (d : ℚ) / 50 * (r + 1/2) :=
    ratTrunc_le (jitter_arg_nonneg hd hr0)
  have hd : (0 : ℚ) ≤ (d : ℚ) := by exact_mod_cast hd
  have h3 : (d : ℚ) / 50 * (r + 1/2) ≤ (d : ℚ) / 50 * (3/2) := by
    apply mul_le_mul_of_nonneg_left (by linarith) (by positivity)
  linarith

theorem jitter_gt {d : ℤ} {r : ℚ} (hd : 0 ≤ d) (hr0 : 0 ≤ r) :
    (d : ℚ) / 100 - 1 < (jitter d r : ℚ) := by
  rw [jitter_eq]
  have h2 : (d : ℚ) / 50 * (r + 1/2) - 1 < (ratTrunc ((d : ℚ) / 50 * (r + 1/2)) : ℚ) :=
    ratTrunc_gt (jitter_arg_nonneg hd hr0)
  have hd : (0 : ℚ) ≤ (d : ℚ) := by exact_mod_cast hd
  have h3 : (d : ℚ) / 50 * (1/2) ≤ (d : ℚ) / 50 * (r + 1/2) := by
    apply mul_le_mul_of_nonneg_left (by linarith) (by positivity)
  linarith

theorem getBackoff_ge_self {d : ℤ} {r : ℚ} (hd : 0 ≤ d) (hr : 0 ≤ r) :
    d ≤ getBackoff d r := by
  unfold getBackoff
  split
  · have := jitter_nonneg hd hr
    omega
  · have := jitter_nonneg (by omega : (0:ℤ) ≤ d * 2) hr
    omega

theorem getBackoff_nonneg {d : ℤ} {r : ℚ} (hd : 0 ≤ d) (hr : 0 ≤ r) :
    0 ≤ getBackoff d r :=
  le_trans hd (getBackoff_ge_self hd hr)

theorem getBackoff_gt_self {d : ℤ} {r : ℚ} (hd : 0 < d)
    (hd15 : d ≤ 15 * 1000000000) (hr : 0 ≤ r) : d < getBackoff d r := by
  unfold getBackoff
  rw [if_neg (by omega)]
  have := jitter_nonneg (by omega : (0:ℤ) ≤ d * 2) hr
  omega

theorem getBackoff_lt_ceiling {d : ℤ} {r : ℚ} (hd15 : 15 * 1000000000 < d)
    (hr0 : 0 ≤ r) (hr1 : r < 1) :
    (getBackoff d r : ℚ) < (d : ℚ) + 3 * (d : ℚ) / 100 := by
  unfold getBackoff
  rw [if_pos (by omega)]
  push_cast
  have hd : (0 : ℤ) ≤ d := by omega
  have hle := jitter_le hd hr0 hr1
  have hdQ : (15000000000 : ℚ) < (d : ℚ) := by exact_mod_cast hd15
  rw [jitter_eq] at hle ⊢
  have h2 : (ratTrunc ((d : ℚ) / 50 * (r + 1/2)) : ℚ) ≤ (d : ℚ) / 50 * (r + 1/2) :=
    ratTrunc_le (jitter_arg_nonneg hd hr0)
  have h3 : (d : ℚ) / 50 * (r + 1/2) < (d : ℚ) / 50 * (3/2) := by
    apply mul_lt_mul_of_pos_left (by linarith) (by positivity)
  linarith

theorem boChain_nonneg {rs : ℕ → ℚ} (hrs : ∀ i, 0 ≤ rs i) (i : ℕ) :
    0 ≤ boChain rs i := by
  induction i with
  | zero => simp [boChain]
  | succ i ih => exact getBackoff_nonneg ih (hrs i)

theorem boChain_le_succ {rs : ℕ → ℚ} (hrs : ∀ i, 0 ≤ rs i) (i : ℕ) :
    boChain rs i ≤ boChain rs (i + 1) :=
  getBackoff_ge_self (boChain_nonneg hrs i) (hrs i)

theorem ratTrunc_intCast (n : ℤ) : ratTrunc (n : ℚ) = n := by
  unfold ratTrunc
  rw [Rat.intCast_num, Rat.intCast_den]
  simp [Int.tdiv_one]

/-! Structural lemmas about the executors. -/

theorem srcAttempt_eq_specAttempt {σ ε : Type} (rC : Option ε → Bool)
    (reauthorize g : σ → Option (σ × Option ε)) :
    srcAttempt rC reauthorize g = specAttempt rC reauthorize g := by
  funext s
  unfold srcAttempt specAttempt
  cases withReauthS rC reauthorize g s with
  | none => rfl
  | some p =>
    obtain ⟨s1, e⟩ := p
    cases e <;> rfl

theorem withReauthS_pres {σ ε : Type} {rC : Option ε → Bool}
    {reauthorize g : σ → Option (σ × Option ε)} (P : σ → Prop)
    (hR : ∀ s s1 e, reauthorize s = some (s1, e) → P s → P s1)
    (hg : ∀ s s1 e, g s = some (s1, e) → P s → P s1) :
    ∀ s s1 e, withReauthS rC reauthorize g s = some (s1, e) → P s → P s1 := by
  intro s s1 e h hP
  unfold withReauthS at h
  cases hg0 : g s with
  | none => rw [hg0] at h; cases h
  | some p =>
    obtain ⟨sa, ea⟩ := p
    rw [hg0] at h
    simp only at h
    have hPa := hg s sa ea hg0 hP
    by_cases hc : rC ea
    · rw [if_pos hc] at h
      cases hR0 : reauthorize sa with
      | none => rw [hR0] at h; cases h
      | some q =>
        obtain ⟨sb, eb⟩ := q
        rw [hR0] at h
        have hPb := hR sa sb eb hR0 hPa
        cases eb with
        | none => exact hg sb s1 e h hPb
        | some re =>
          obtain ⟨rfl, -⟩ := Prod.mk.injEq .. ▸ Option.some.injEq .. ▸ h
          exact hPb
    · rw [if_neg hc] at h
      obtain ⟨rfl, -⟩ := Prod.mk.injEq .. ▸ Option.some.injEq .. ▸ h
      exact hPa

theorem withBackoffAux_pres {σ ε : Type} {tr : Option ε → Bool}
    {boC : Option ε → Option ℕ} {ctx : Ctx ε}
    {f : σ → Option (σ × Bool × Option ε)} {rs : ℕ → ℚ} (P : σ → Prop)
    (hf : ∀ s s1 fin e, f s = some (s1, fin, e) → P s → P s1) :
    ∀ fuel s w b s1 out,
      withBackoffAux tr boC ctx f rs fuel s w b = some (s1, out) → P s → P s1 := by
  intro fuel
  induction fuel with
  | zero => intro s w b s1 out h; cases h
  | succ n ih =>
    intro s w b s1 out h hP
    rw [withBackoffAux] at h
    cases hf0 : f s with
    | none => rw [hf0] at h; cases h
    | some p =>
      obtain ⟨sa, fin, e⟩ := p
      rw [hf0] at h
      have hPa := hf s sa fin e hf0 hP
      simp only at h
      cases fin with
      | true =>
        simp only [if_pos rfl] at h
        obtain ⟨rfl, -⟩ := Prod.mk.injEq .. ▸ Option.some.injEq .. ▸ h
        exact hPa
      | false =>
        simp only [Bool.false_eq_true, if_false] at h
        by_cases ht : tr e = false
        · rw [if_pos ht] at h
          obtain ⟨rfl, -⟩ := Prod.mk.injEq .. ▸ Option.some.injEq .. ▸ h
          exact hPa
        · rw [if_neg ht] at h
          by_cases hd : ctx.done w
          · rw [if_pos hd] at h
            obtain ⟨rfl, -⟩ := Prod.mk.injEq .. ▸ Option.some.injEq .. ▸ h
            exact hPa
          · rw [if_neg hd] at h
            obtain ⟨⟨s2, out2⟩, hrec, hmap⟩ := Option.map_eq_some'.mp h
            obtain ⟨rfl, -⟩ := Prod.mk.injEq .. ▸ hmap
            exact ih sa _ _ s2 out2 hrec hPa

theorem withBackoffAux_cancelled {σ ε : Type} {tr : Option ε → Bool}
    {boC : Option ε → Option ℕ} {ctx : Ctx ε}
    {f : σ → Option (σ × Bool × Option ε)} {rs : ℕ → ℚ} :
    ∀ fuel s w b s1 out,
      withBackoffAux tr boC ctx f rs fuel s w b = some (s1, out) →
      out.cancelled = true → out.result = some ctx.err := by
  intro fuel
  induction fuel with
  | zero => intro s w b s1 out h; cases h
  | succ n ih =>
    intro s w b s1 out h hc
    rw [withBackoffAux] at h
    cases hf0 : f s with
    | none => rw [hf0] at h; cases h
    | some p =>
      obtain ⟨sa, fin, e⟩ := p
      rw [hf0] at h
      simp only at h
      cases fin with
      | true =>
        simp only [if_pos rfl] at h
        obtain ⟨-, rfl⟩ := Prod.mk.injEq .. ▸ Option.some.injEq .. ▸ h
        cases hc
      | false =>
        simp only [Bool.false_eq_true, if_false] at h
        by_cases ht : tr e = false
        · rw [if_pos ht] at h
          obtain ⟨-, rfl⟩ := Prod.mk.injEq .. ▸ Option.some.injEq .. ▸ h
          cases hc
        · rw [if_neg ht] at h
          by_cases hd : ctx.done w
          · rw [if_pos hd] at h
            obtain ⟨-, rfl⟩ := Prod.mk.injEq .. ▸ Option.some.injEq .. ▸ h
            rfl
          · rw [if_neg hd] at h
            obtain ⟨⟨s2, out2⟩, hrec, hmap⟩ := Option.map_eq_some'.mp h
            obtain ⟨-, rfl⟩ := Prod.mk.injEq .. ▸ hmap
            simp only at hc ⊢
            exact ih sa _ _ s2 out2 hrec hc

theorem range_map_shift {α : Type} (g : ℕ → α) (M k : ℕ) :
    (List.range (M + 1)).map (fun i => g (k + i + 1)) =
      g (k + 1) :: (List.range M).map (fun i => g ((k + 1) + i + 1)) := by
  rw [List.range_succ_eq_map, List.map_cons, List.map_map]
  refine congrArg₂ _ rfl ?_
  refine List.map_congr_left (fun i _ => ?_)
  simp only [Function.comp_apply]
  congr 1
  omega

/-- Evaluation of a fresh `withBackoff` loop on a unit of work that fails
`N - k` more times, starting at call index `k` with the running backoff
`boChain rs k`: it consumes exactly the remaining failures plus the final
success, completing the waits `boChain rs (k+1), ..., boChain rs N`. -/
theorem withBackoffAux_failN {ε : Type} (es : ℕ → ε) (tr : Option ε → Bool)
    (boC : Option ε → Option ℕ) (ctx : Ctx ε) (rs : ℕ → ℚ) (N : ℕ)
    (htr : ∀ k, k < N → tr (some (es k)) = true)
    (hbo : ∀ k, k < N → boC (some (es k)) = none)
    (hdone : ∀ w, ctx.done w = false) :
    ∀ M k, k + M = N →
      withBackoffAux tr boC ctx (failNTimes es N) rs (M + 1) k k (boChain rs k) =
        some (N + 1,
          ⟨none, (List.range M).map (fun i => boChain rs (k + i + 1)), false⟩) := by
  intro M
  induction M with
  | zero =>
    intro k hk
    have hk : k = N := by omega
    subst hk
    rw [withBackoffAux]
    simp [failNTimes]
  | succ M ih =>
    intro k hk
    have hkN : k < N := by omega
    rw [withBackoffAux]
    have hfk : failNTimes es N k = some (k + 1, false, some (es k)) := by
      simp [failNTimes, hkN]
    rw [hfk]
    simp only [Bool.false_eq_true, if_false, htr k hkN, hbo k hkN,
      Bool.true_eq_false, hdone k]
    have hrec := ih (k + 1) (by omega)
    have hbo1 : getBackoff (boChain rs k) (rs k) = boChain rs (k + 1) := rfl
    rw [hbo1, hrec, Option.map_some']
    have hlist : (List.range (M + 1)).map (fun i => boChain rs (k + i + 1)) =
        boChain rs (k + 1) :: (List.range M).map (fun i => boChain rs ((k + 1) + i + 1)) :=
      range_map_shift (fun i => boChain rs i) M k
    rw [hlist]

theorem srcAttempt_pres {σ ε : Type} {rC : Option ε → Bool}
    {R g : σ → Option (σ × Option ε)} (P : σ → Prop)
    (hR : ∀ s s1 e, R s = some (s1, e) → P s → P s1)
    (hg : ∀ s s1 e, g s = some (s1, e) → P s → P s1) :
    ∀ s s1 fin e, srcAttempt rC R g s = some (s1, fin, e) → P s → P s1 := by
  intro s s1 fin e h hP
  unfold srcAttempt at h
  obtain ⟨⟨sa, ea⟩, hw, hmap⟩ := Option.map_eq_some'.mp h
  have hPa := withReauthS_pres P hR hg s sa ea hw hP
  cases ea with
  | none =>
    simp only at hmap
    obtain ⟨rfl, -⟩ := Prod.mk.injEq .. ▸ hmap
    exact hPa
  | some v =>
    simp only at hmap
    obtain ⟨rfl, -⟩ := Prod.mk.injEq .. ▸ hmap
    exact hPa

theorem reauthLift_pres {ε σh : Type} (F : World → Option (World × Option ε))
    (Q : σh → Prop) :
    ∀ s s1 e, reauthLift F s = some (s1, e) → Q s.2 → Q s1.2 := by
  intro s s1 e h hQ
  unfold reauthLift at h
  obtain ⟨q, hq, hmap⟩ := Option.map_eq_some'.mp h
  obtain ⟨rfl, -⟩ := Prod.mk.injEq .. ▸ hmap
  exact hQ

/-- Any property of the closure-captured accumulator component that the
`withReauth` body preserves is an invariant of the whole composed
resilient operation (reauthorization never touches the accumulator). -/
theorem handleOp_pres {ε σh : Type} (tr : Option ε → Bool)
    (boC : Option ε → Option ℕ) (ctx : Ctx ε) (rs : ℕ → ℚ)
    (rC : Option ε → Bool) (F : World → Option (World × Option ε))
    (g : World × σh → Option ((World × σh) × Option ε)) (Q : σh → Prop)
    (hg : ∀ s s1 e, g s = some (s1, e) → Q s.2 → Q s1.2)
    (fuel : ℕ) (w : World) (init : σh) (hQ0 : Q init)
    (p : (World × σh) × BackoffOut ε)
    (hb : withBackoff tr boC ctx (srcAttempt rC (reauthLift F) g) rs fuel
      (w, init) = some p) :
    Q p.1.2 := by
  unfold withBackoff at hb
  exact withBackoffAux_pres (P := fun s : World × σh => Q s.2)
    (srcAttempt_pres _ (fun s s1 e h hQ => reauthLift_pres F Q s s1 e h hQ) hg)
    fuel (w, init) 0 (500 * 1000000) p.1 p.2 hb hQ0

/-! Claims C7 and C8: the jitter and backoff-growth arithmetic. -/

/-- Claim C7 as frozen is false: at `d = 1000` ns with draw `9/10`, the
jitter is 28 ns, which does not lie in the claimed open interval
`(-d/100, d/100) = (-10, 10)`; the code adds the noise to `d/50` instead
of returning the noise alone. -/
theorem claim_C7_counterexample : ¬ (jitter 1000 (9/10) < 1000 / 100) := by
  have hv : jitter 1000 (9/10) = 28 := by
    rw [jitter_eq]
    have h : ((1000 : ℤ) : ℚ) / 50 * (9/10 + 1/2) = ((28 : ℤ) : ℚ) := by norm_num
    rw [h, ratTrunc_intCast]
  rw [hv]
  decide

/-- Claim C7, amended: for every duration `d ≥ 0` and draw in `[0,1)`,
`jitter d r` equals the truncation of `(d/50)·(r + 0.5)`: one-sided
positive noise, at least `d/100 - 1` and at most `3·d/100` — between
about 1% and 3% of `d`, never symmetric around zero. -/
theorem claim_C7 (d : ℤ) (r : ℚ) (hd : 0 ≤ d) (hr0 : 0 ≤ r) (hr1 : r < 1) :
    jitter d r = ratTrunc ((d : ℚ) / 50 * (r + 1/2)) ∧
    0 ≤ jitter d r ∧
    (jitter d r : ℚ) ≤ 3 * (d : ℚ) / 100 ∧
    (d : ℚ) / 100 - 1 < (jitter d r : ℚ) :=
  ⟨jitter_eq d r, jitter_nonneg hd hr0, jitter_le hd hr0 hr1, jitter_gt hd hr0⟩

/-- Witness for C7 at `d = 1000`, `r = 9/10`. -/
theorem claim_C7_witness :
    (0 ≤ (1000 : ℤ)) ∧ ((0 : ℚ) ≤ 9/10) ∧ ((9/10 : ℚ) < 1) ∧
    (jitter 1000 (9/10) = ratTrunc (((1000 : ℤ) : ℚ) / 50 * (9/10 + 1/2)) ∧
      0 ≤ jitter 1000 (9/10) ∧
      (jitter 1000 (9/10) : ℚ) ≤ 3 * ((1000 : ℤ) : ℚ) / 100 ∧
      ((1000 : ℤ) : ℚ) / 100 - 1 < (jitter 1000 (9/10) : ℚ)) :=
  ⟨by decide, by norm_num, by norm_num,
    claim_C7 1000 (9/10) (by decide) (by norm_num) (by norm_num)⟩

/-- Claim C8 as frozen is false above the ceiling: at `d = 20 s` with
draw `9/10`, `getBackoff d = d + 560 ms`, which exceeds the claimed
bound `d + 1.5%·d = 20.3 s` (the jitter reaches 3%, not 1.5%). -/
theorem claim_C8_counterexample :
    ¬ (getBackoff 20000000000 (9/10) ≤ 20300000000) := by
  have hj : jitter 20000000000 (9/10) = 560000000 := by
    rw [jitter_eq]
    have h : ((20000000000 : ℤ) : ℚ) / 50 * (9/10 + 1/2) = ((560000000 : ℤ) : ℚ) := by
      norm_num
    rw [h, ratTrunc_intCast]
  unfold getBackoff
  rw [if_pos (by decide : (20000000000 : ℤ) > 15 * 1000000000), hj]
  decide

/-- Claim C8, amended: with a draw in `[0,1)`, `getBackoff d r` is
strictly greater than `d` for `0 < d ≤ 15 s`, and for `d > 15 s` it stays
strictly below `d + 3%·d` (additive growth bounded by the actual jitter
magnitude of 3%, not 1.5%). -/
theorem claim_C8 (d : ℤ) (r : ℚ) (hr0 : 0 ≤ r) (hr1 : r < 1) :
    (0 < d → d ≤ 15 * 1000000000 → d < getBackoff d r) ∧
    (15 * 1000000000 < d → (getBackoff d r : ℚ) < (d : ℚ) + 3 * (d : ℚ) / 100) :=
  ⟨fun h1 h2 => getBackoff_gt_self h1 h2 hr0,
   fun h => getBackoff_lt_ceiling h hr0 hr1⟩

/-- Witness for C8: the doubling half at `d = 1 s` and the ceiling half
at `d = 20 s`, both with draw `1/2`. -/
theorem claim_C8_witness :
    ((0 : ℤ) < 1000000000 ∧ (1000000000 : ℤ) ≤ 15 * 1000000000 ∧
      1000000000 < getBackoff 1000000000 (1/2)) ∧
    ((15 * 1000000000 : ℤ) < 20000000000 ∧
      (getBackoff 20000000000 (1/2) : ℚ) <
        ((20000000000 : ℤ) : ℚ) + 3 * ((20000000000 : ℤ) : ℚ) / 100) :=
  ⟨⟨by decide, by decide,
    (claim_C8 1000000000 (1/2) (by norm_num) (by norm_num)).1 (by decide) (by decide)⟩,
   ⟨by decide,
    (claim_C8 20000000000 (1/2) (by norm_num) (by norm_num)).2 (by decide)⟩⟩

/-! Claims about the executors. -/

/-- Claim C2: when the wrapped operation's first result is classified
reauth-worthy and the reauthorization succeeds, `withReauth` invokes the
authorize path exactly once and the wrapped operation exactly twice,
returning the second result — with no reference to the transient
classifier at all; and on any run it performs at most one
reauthentication. -/
theorem claim_C2 :
    (∀ (ε : Type) (gs ra : ℕ → Option ε) (rC : Option ε → Bool),
      rC (gs 0) = true → ra 0 = none →
      withReauthS rC (raCount ra) (gCount gs) (0, 0) = some ((2, 1), gs 1)) ∧
    (∀ (ε : Type) (gs ra : ℕ → Option ε) (rC : Option ε → Bool) (s0 s1 : ℕ × ℕ)
        (e : Option ε),
      withReauthS rC (raCount ra) (gCount gs) s0 = some (s1, e) →
      s1.2 ≤ s0.2 + 1) := by
  constructor
  · intro ε gs ra rC h1 h2
    simp [withReauthS, gCount, raCount, h1, h2]
  · intro ε gs ra rC s0 s1 e h
    obtain ⟨a, b⟩ := s0
    obtain ⟨a1, b1⟩ := s1
    show b1 ≤ b + 1
    by_cases hc : rC (gs a)
    · cases hra : ra b with
      | some re =>
        simp [withReauthS, gCount, raCount, hc, hra] at h
        omega
      | none =>
        simp [withReauthS, gCount, raCount, hc, hra] at h
        omega
    · simp [withReauthS, gCount, raCount, hc] at h
      omega

/-- Witness for C2: a wrapped call failing once with error 5, a
classifier marking it reauth-worthy, a succeeding reauthorization. -/
theorem claim_C2_witness :
    ((fun _ : Option ℕ => true) ((fun k => if k = 0 then (some 5 : Option ℕ) else none) 0)
        = true) ∧
    withReauthS (fun _ : Option ℕ => true) (raCount fun _ => none)
      (gCount fun k => if k = 0 then (some 5 : Option ℕ) else none) (0, 0) =
      some ((2, 1), none) :=
  ⟨rfl, claim_C2.1 ℕ (fun k => if k = 0 then some 5 else none) (fun _ => none)
    (fun _ => true) rfl rfl⟩

/-- Claim C6: when the wrapped operation's error is reauth-worthy and the
reauthorization fails with `re`, `withReauth` returns `re` (discarding the
original error) after exactly one wrapped call and one reauthorization. -/
theorem claim_C6 :
    ∀ (ε : Type) (gs ra : ℕ → Option ε) (rC : Option ε → Bool) (re : ε),
      rC (gs 0) = true → ra 0 = some re →
      withReauthS rC (raCount ra) (gCount gs) (0, 0) = some ((1, 1), some re) := by
  intro ε gs ra rC re h1 h2
  simp [withReauthS, gCount, raCount, h1, h2]

/-- Witness for C6: original error 5, failing reauthorization error 9. -/
theorem claim_C6_witness :
    ((fun _ : Option ℕ => true) ((fun _ => (some 5 : Option ℕ)) 0) = true) ∧
    withReauthS (fun _ : Option ℕ => true) (raCount fun _ => (some 9 : Option ℕ))
      (gCount fun _ => (some 5 : Option ℕ)) (0, 0) = some ((1, 1), some 9) :=
  ⟨rfl, claim_C6 ℕ (fun _ => some 5) (fun _ => some 9) (fun _ => true) 9 rfl rfl⟩

/-- Claim C10: `withReauth` consults the reauth classifier even on a nil
error.  With `reauth(nil) = true`, a successful `listBuckets` raw call is
followed by a reauthorization and a second raw call whose buckets are
appended to the same captured slice, so each bucket appears twice; with
`reauth(nil) = false`, a successful call is never re-invoked. -/
theorem claim_C10 :
    ((listBuckets rc10 ctx0 rsHalf 1 1 ⟨3⟩ w0).map (fun p => p.2) =
      some (some [⟨5, 3⟩, ⟨5, 3⟩], none)) ∧
    (∀ (σ ε : Type) (rC : Option ε → Bool) (R g : σ → Option (σ × Option ε))
        (s s1 : σ),
      rC none = false → g s = some (s1, none) →
      withReauthS rC R g s = some (s1, none)) := by
  refine ⟨rfl, ?_⟩
  intro σ ε rC R g s s1 hrc hg
  unfold withReauthS
  rw [hg]
  simp [hrc]

/-- Witness for C10's second half: a classifier that never asks for
reauthorization and a wrapped call that succeeds. -/
theorem claim_C10_witness :
    ((fun _ : Option ℕ => false) none = false) ∧
    withReauthS (fun _ : Option ℕ => false) (fun n : ℕ => some (n, none))
      (fun n : ℕ => some (n + 1, none)) 0 = some (0 + 1, none) :=
  ⟨rfl, claim_C10.2 ℕ ℕ (fun _ => false) (fun n => some (n, none))
    (fun n => some (n + 1, none)) 0 (0 + 1) rfl rfl⟩

/-- Claim C4: if the context is cancelled at the backoff wait following a
transient failure, `withBackoff` returns the context's error (the error
that prompted the wait is discarded) with the post-call state unchanged —
no further invocation of the unit of work; and any cancelled run reports
the context's error. -/
theorem claim_C4 :
    (∀ (σ ε : Type) (tr : Option ε → Bool) (boC : Option ε → Option ℕ) (ctx : Ctx ε)
        (f : σ → Option (σ × Bool × Option ε)) (rs : ℕ → ℚ) (fuel : ℕ) (s : σ)
        (w : ℕ) (b : ℤ) (s1 : σ) (e : ε),
      f s = some (s1, false, some e) → tr (some e) = true → ctx.done w = true →
      withBackoffAux tr boC ctx f rs (fuel + 1) s w b =
        some (s1, ⟨some ctx.err, [], true⟩)) ∧
    (∀ (σ ε : Type) (tr : Option ε → Bool) (boC : Option ε → Option ℕ) (ctx : Ctx ε)
        (f : σ → Option (σ × Bool × Option ε)) (rs : ℕ → ℚ) (fuel : ℕ) (s : σ)
        (w : ℕ) (b : ℤ) (s1 : σ) (out : BackoffOut ε),
      withBackoffAux tr boC ctx f rs fuel s w b = some (s1, out) →
      out.cancelled = true → out.result = some ctx.err) := by
  constructor
  · intro σ ε tr boC ctx f rs fuel s w b s1 e hf htr hdone
    rw [withBackoffAux, hf]
    simp [htr, hdone]
  · intro σ ε tr boC ctx f rs fuel s w b s1 out h hc
    exact withBackoffAux_cancelled fuel s w b s1 out h hc

/-- Witness for C4: a counter-state unit of work failing transiently with
error 7 under a context that is already cancelled. -/
theorem claim_C4_witness :
    ((fun n : ℕ => some (n + 1, false, (some 7 : Option ℕ))) 0 =
      some (1, false, some 7)) ∧
    withBackoffAux (fun _ : Option ℕ => true) (fun _ => none)
      (⟨fun _ => true, 99⟩ : Ctx ℕ) (fun n : ℕ => some (n + 1, false, some 7))
      rsHalf 1 0 0 0 = some (1, ⟨some 99, [], true⟩) :=
  ⟨rfl, claim_C4.1 ℕ ℕ (fun _ => true) (fun _ => none) ⟨fun _ => true, 99⟩
    (fun n => some (n + 1, false, some 7)) rsHalf 0 0 0 0 1 7 rfl rfl rfl⟩

/-- Claim C5: a first raw failure that is neither reauth-worthy nor
transient is returned by the composed resilient operation exactly as
produced, after a single raw invocation, with no backoff wait, no
cancellation, and the reauthorization path never taken (the final state
is exactly the post-first-call state; in counter form: one wrapped call,
zero reauthorizations). -/
theorem claim_C5 :
    (∀ (σ ε : Type) (tr : Option ε → Bool) (boC : Option ε → Option ℕ) (ctx : Ctx ε)
        (rs : ℕ → ℚ) (rC : Option ε → Bool) (R g : σ → Option (σ × Option ε))
        (F : ℕ) (s s1 : σ) (e : ε),
      g s = some (s1, some e) → rC (some e) = false → tr (some e) = false →
      withBackoff tr boC ctx (srcAttempt rC R g) rs (F + 1) s =
        some (s1, ⟨some e, [], false⟩)) ∧
    (∀ (ε : Type) (tr : Option ε → Bool) (boC : Option ε → Option ℕ) (ctx : Ctx ε)
        (rs : ℕ → ℚ) (rC : Option ε → Bool) (gs ra : ℕ → Option ε) (F : ℕ) (e : ε),
      gs 0 = some e → rC (some e) = false → tr (some e) = false →
      withBackoff tr boC ctx (srcAttempt rC (raCount ra) (gCount gs)) rs (F + 1) (0, 0) =
        some ((1, 0), ⟨some e, [], false⟩)) := by
  have main : ∀ (σ ε : Type) (tr : Option ε → Bool) (boC : Option ε → Option ℕ)
      (ctx : Ctx ε) (rs : ℕ → ℚ) (rC : Option ε → Bool)
      (R g : σ → Option (σ × Option ε)) (F : ℕ) (s s1 : σ) (e : ε),
      g s = some (s1, some e) → rC (some e) = false → tr (some e) = false →
      withBackoff tr boC ctx (srcAttempt rC R g) rs (F + 1) s =
        some (s1, ⟨some e, [], false⟩) := by
    intro σ ε tr boC ctx rs rC R g F s s1 e hg hrc htr
    have hatt : srcAttempt rC R g s = some (s1, false, some e) := by
      unfold srcAttempt withReauthS
      rw [hg]
      simp [hrc]
    unfold withBackoff
    rw [withBackoffAux, hatt]
    simp [htr]
  refine ⟨main, ?_⟩
  intro ε tr boC ctx rs rC gs ra F e hg hrc htr
  exact main (ℕ × ℕ) ε tr boC ctx rs rC (raCount ra) (gCount gs) F (0, 0) (1, 0) e
    (by simp [gCount, hg]) hrc htr

/-- Witness for C5: a wrapped call failing with error 7 that no
classifier accepts. -/
theorem claim_C5_witness :
    ((fun _ : ℕ => (some 7 : Option ℕ)) 0 = some 7) ∧
    withBackoff (fun _ : Option ℕ => false) (fun _ => none) ctx0
      (srcAttempt (fun _ : Option ℕ => false) (raCount fun _ => none)
        (gCount fun _ : ℕ => (some 7 : Option ℕ)))
      rsHalf 1 (0, 0) = some ((1, 0), ⟨some 7, [], false⟩) :=
  ⟨rfl, claim_C5.2 ℕ (fun _ => false) (fun _ => none) ctx0 rsHalf (fun _ => false)
    (fun _ => some 7) (fun _ => none) 0 7 rfl rfl rfl⟩

/-- Claim C3: with an always-transient classifier, no backoff override
and no cancellation, a unit of work that fails on its first `N`
invocations and then succeeds makes `withBackoff` return success with
exactly `N + 1` invocations (the final counter state) and `N` completed
waits; the running backoff starts at 500 ms (`boChain rs 0`), the `i`-th
wait sleeps `boChain rs (i+1)`, and successive backoff values are
monotonically non-decreasing. -/
theorem claim_C3 :
    ∀ (ε : Type) (es : ℕ → ε) (tr : Option ε → Bool) (boC : Option ε → Option ℕ)
      (ctx : Ctx ε) (rs : ℕ → ℚ) (N : ℕ),
      (∀ k, k < N → tr (some (es k)) = true) →
      (∀ k, k < N → boC (some (es k)) = none) →
      (∀ w, ctx.done w = false) →
      (∀ i, 0 ≤ rs i ∧ rs i < 1) →
      (withBackoff tr boC ctx (failNTimes es N) rs (N + 1) 0 =
        some (N + 1,
          ⟨none, (List.range N).map (fun i => boChain rs (i + 1)), false⟩)) ∧
      (∀ i, boChain rs i ≤ boChain rs (i + 1)) := by
  intro ε es tr boC ctx rs N htr hbo hdone hrs
  constructor
  · have h := withBackoffAux_failN es tr boC ctx rs N htr hbo hdone N 0 (by omega)
    unfold withBackoff
    simpa using h
  · intro i
    exact boChain_le_succ (fun j => (hrs j).1) i

/-- Witness for C3: two transient failures with error 7, then success. -/
theorem claim_C3_witness :
    (∀ k, k < 2 → (fun _ : Option ℕ => true) (some 7) = true) ∧
    withBackoff (fun _ : Option ℕ => true) (fun _ => none) ctx0
      (failNTimes (fun _ => (7 : ℕ)) 2) rsHalf 3 0 =
      some (3, ⟨none, (List.range 2).map (fun i => boChain rsHalf (i + 1)), false⟩) :=
  ⟨fun _ _ => rfl,
    (claim_C3 ℕ (fun _ => 7) (fun _ => true) (fun _ => none) ctx0 rsHalf 2
      (fun _ _ => rfl) (fun _ _ => rfl) (fun _ => rfl)
      (fun _ => ⟨by norm_num [rsHalf], by norm_num [rsHalf]⟩)).1⟩

/-- Claim C1 as frozen is false: it asserts the `RetryExecutor ∘
ReauthExecutor` composition for every public operation including
`authorizeAccount`, but `authorizeAccount` never routes its raw call
through `withReauth`.  Concretely, with every error reauth-worthy,
nothing transient, and raw authorize failing once with error 7 and then
succeeding, the real `authorizeAccount` returns error 7 after one raw
call while the claimed composition reauthorizes and succeeds. -/
theorem claim_C1_counterexample :
    authorizeAccount rc1 ctx0 rsHalf 2 "a" "k" w0 ≠
      (withBackoff rc1.transient rc1.backoff ctx0
          (specAttempt rc1.reauth (reauthorizeAccount rc1 ctx0 rsHalf 2)
            (authGSpec rc1 "a" "k"))
          rsHalf 2 w0).map (fun p => (p.1, p.2.result)) := by
  decide

/-- Claim C1, amended: the source attempt glue agrees pointwise with the
specification's attempt (`final = true` exactly on reauth-wrapped
success), and the six remote operations below `authorizeAccount`
(createBucket, listBuckets, deleteBucket, getUploadURL, uploadFile,
deleteFileVersion) each equal the `withBackoff ∘ withReauth`
composition; `authorizeAccount` is `withBackoff` alone around the raw
authorize-and-store attempt, and `name` is a pure passthrough using no
executor. -/
theorem claim_C1 :
    (∀ (σ ε : Type) (rC : Option ε → Bool) (R g : σ → Option (σ × Option ε)),
      srcAttempt rC R g = specAttempt rC R g) ∧
    (∀ (ε β υ φ : Type) (rc : RawClient ε β υ φ) (ctx : Ctx ε) (rs : ℕ → ℚ)
        (fuel fuelR : ℕ) (r : BeRoot) (w : World),
      createBucket rc ctx rs fuel fuelR r w =
        (withBackoff rc.transient rc.backoff ctx
            (specAttempt rc.reauth (reauthLift (reauthorizeAccount rc ctx rs fuelR))
              (createBucketG rc r)) rs fuel (w, none)).map
          (fun p =>
            match p.2.result with
            | some e => (p.1.1, none, some e)
            | none => (p.1.1, p.1.2, none))) ∧
    (∀ (ε β υ φ : Type) (rc : RawClient ε β υ φ) (ctx : Ctx ε) (rs : ℕ → ℚ)
        (fuel fuelR : ℕ) (r : BeRoot) (w : World),
      listBuckets rc ctx rs fuel fuelR r w =
        (withBackoff rc.transient rc.backoff ctx
            (specAttempt rc.reauth (reauthLift (reauthorizeAccount rc ctx rs fuelR))
              (listBucketsG rc r)) rs fuel (w, [])).map
          (fun p =>
            match p.2.result with
            | some e => (p.1.1, none, some e)
            | none => (p.1.1, some p.1.2, none))) ∧
    (∀ (ε β υ φ : Type) (rc : RawClient ε β υ φ) (ctx : Ctx ε) (rs : ℕ → ℚ)
        (fuel fuelR : ℕ) (b : BeBucket β) (w : World),
      deleteBucket rc ctx rs fuel fuelR b w =
        (withBackoff rc.transient rc.backoff ctx
            (specAttempt rc.reauth (reauthorizeAccount rc ctx rs fuelR)
              (deleteBucketG rc b)) rs fuel w).map
          (fun p => (p.1, p.2.result))) ∧
    (∀ (ε β υ φ : Type) (rc : RawClient ε β υ φ) (ctx : Ctx ε) (rs : ℕ → ℚ)
        (fuel fuelR : ℕ) (b : BeBucket β) (w : World),
      getUploadURL (υ := υ) rc ctx rs fuel fuelR b w =
        (withBackoff rc.transient rc.backoff ctx
            (specAttempt rc.reauth (reauthLift (reauthorizeAccount rc ctx rs fuelR))
              (getUploadURLG rc b)) rs fuel (w, none)).map
          (fun p =>
            match p.2.result with
            | some e => (p.1.1, none, some e)
            | none => (p.1.1, p.1.2, none))) ∧
    (∀ (ε β υ φ : Type) (rc : RawClient ε β υ φ) (ctx : Ctx ε) (rs : ℕ → ℚ)
        (fuel fuelR : ℕ) (u : BeURL υ) (w : World),
      uploadFile rc ctx rs fuel fuelR u w =
        (withBackoff rc.transient rc.backoff ctx
            (specAttempt rc.reauth (reauthLift (reauthorizeAccount rc ctx rs fuelR))
              (uploadFileG rc u)) rs fuel (w, none)).map
          (fun p =>
            match p.2.result with
            | some e => (p.1.1, none, some e)
            | none => (p.1.1, p.1.2, none))) ∧
    (∀ (ε β υ φ : Type) (rc : RawClient ε β υ φ) (ctx : Ctx ε) (rs : ℕ → ℚ)
        (fuel fuelR : ℕ) (fl : BeFile υ φ) (w : World),
      deleteFileVersion rc ctx rs fuel fuelR fl w =
        (withBackoff rc.transient rc.backoff ctx
            (specAttempt rc.reauth (reauthorizeAccount rc ctx rs fuelR)
              (deleteFileVersionG rc fl)) rs fuel w).map
          (fun p => (p.1, p.2.result))) ∧
    (∀ (ε β υ φ : Type) (rc : RawClient ε β υ φ) (ctx : Ctx ε) (rs : ℕ → ℚ)
        (fuel : ℕ) (account key : String) (w : World),
      authorizeAccount rc ctx rs fuel account key w =
        (withBackoff rc.transient rc.backoff ctx (authAttempt rc account key)
            rs fuel w).map (fun p => (p.1, p.2.result))) ∧
    (∀ (ε β υ φ : Type) (rc : RawClient ε β υ φ) (b : BeBucket β),
      BeBucket.name rc b = rc.rawName b.b2bucket) := by
  refine ⟨fun σ ε rC R g => srcAttempt_eq_specAttempt rC R g,
    ?_, ?_, ?_, ?_, ?_, ?_, fun ε β υ φ rc ctx rs fuel a k w => rfl,
    fun ε β υ φ rc b => rfl⟩
  all_goals
    intro ε β υ φ rc ctx rs fuel fuelR x w
  · unfold createBucket
    rw [srcAttempt_eq_specAttempt]
  · unfold listBuckets
    rw [srcAttempt_eq_specAttempt]
  · unfold deleteBucket
    rw [srcAttempt_eq_specAttempt]
  · unfold getUploadURL
    rw [srcAttempt_eq_specAttempt]
  · unfold uploadFile
    rw [srcAttempt_eq_specAttempt]
  · unfold deleteFileVersion
    rw [srcAttempt_eq_specAttempt]

/-- Claim C9: every handle constructed by a successful creation
operation carries the Session reference of the handle it was created
from — across any run, in particular across intervening transient
retries — and a failing creation operation returns a nil handle. -/
theorem claim_C9 :
    (∀ (ε β υ φ : Type) (rc : RawClient ε β υ φ) (ctx : Ctx ε) (rs : ℕ → ℚ)
        (fuel fuelR : ℕ) (r : BeRoot) (w w1 : World) (h : Option (BeBucket β))
        (e : Option ε),
      createBucket rc ctx rs fuel fuelR r w = some (w1, h, e) →
      (∀ hb, h = some hb → hb.ri = r.addr) ∧ (∀ x, e = some x → h = none)) ∧
    (∀ (ε β υ φ : Type) (rc : RawClient ε β υ φ) (ctx : Ctx ε) (rs : ℕ → ℚ)
        (fuel fuelR : ℕ) (r : BeRoot) (w w1 : World)
        (h : Option (List (BeBucket β))) (e : Option ε),
      listBuckets rc ctx rs fuel fuelR r w = some (w1, h, e) →
      (∀ l, h = some l → ∀ hb ∈ l, hb.ri = r.addr) ∧
        (∀ x, e = some x → h = none)) ∧
    (∀ (ε β υ φ : Type) (rc : RawClient ε β υ φ) (ctx : Ctx ε) (rs : ℕ → ℚ)
        (fuel fuelR : ℕ) (b : BeBucket β) (w w1 : World) (h : Option (BeURL υ))
        (e : Option ε),
      getUploadURL rc ctx rs fuel fuelR b w = some (w1, h, e) →
      (∀ hu, h = some hu → hu.ri = b.ri) ∧ (∀ x, e = some x → h = none)) ∧
    (∀ (ε β υ φ : Type) (rc : RawClient ε β υ φ) (ctx : Ctx ε) (rs : ℕ → ℚ)
        (fuel fuelR : ℕ) (u : BeURL υ) (w w1 : World) (h : Option (BeFile υ φ))
        (e : Option ε),
      uploadFile rc ctx rs fuel fuelR u w = some (w1, h, e) →
      (∀ hf, h = some hf → hf.ri = u.ri ∧ hf.url = u) ∧
        (∀ x, e = some x → h = none)) := by
  refine ⟨?_, ?_, ?_, ?_⟩
  · intro ε β υ φ rc ctx rs fuel fuelR r w w1 h e hrun
    unfold createBucket at hrun
    obtain ⟨p, hb, hmap⟩ := Option.map_eq_some'.mp hrun
    have hQ : ∀ x, p.1.2 = some x → BeBucket.ri x = r.addr := by
      refine handleOp_pres _ _ _ _ _ _ _
        (fun ho : Option (BeBucket β) => ∀ x, ho = some x → x.ri = r.addr)
        ?_ fuel w none (fun x hx => by cases hx) p hb
      intro s s1 e1 hgc hQs x hx
      unfold createBucketG at hgc
      cases hcr : rc.rawCreateBucket s.1.createCalls with
      | error e2 =>
        rw [hcr] at hgc
        simp only at hgc
        obtain ⟨rfl, -⟩ := Prod.mk.injEq .. ▸ Option.some.injEq .. ▸ hgc
        exact hQs x hx
      | ok bucket =>
        rw [hcr] at hgc
        simp only at hgc
        obtain ⟨rfl, -⟩ := Prod.mk.injEq .. ▸ Option.some.injEq .. ▸ hgc
        obtain rfl := Option.some.injEq .. ▸ hx
        rfl
    cases hres : p.2.result with
    | none =>
      rw [hres] at hmap
      simp only [Prod.mk.injEq] at hmap
      obtain ⟨-, h2, h3⟩ := hmap
      subst h2
      subst h3
      exact ⟨hQ, fun x hx => by cases hx⟩
    | some e2 =>
      rw [hres] at hmap
      simp only [Prod.mk.injEq] at hmap
      obtain ⟨-, h2, h3⟩ := hmap
      subst h2
      subst h3
      exact ⟨(fun hb0 hh => by cases hh), fun x hx => rfl⟩
  · intro ε β υ φ rc ctx rs fuel fuelR r w w1 h e hrun
    unfold listBuckets at hrun
    obtain ⟨p, hb, hmap⟩ := Option.map_eq_some'.mp hrun
    have hQ : ∀ x ∈ p.1.2, BeBucket.ri x = r.addr := by
      refine handleOp_pres _ _ _ _ _ _ _
        (fun l : List (BeBucket β) => ∀ x ∈ l, x.ri = r.addr)
        ?_ fuel w [] (fun x hx => by cases hx) p hb
      intro s s1 e1 hgc hQs x hx
      unfold listBucketsG at hgc
      cases hcr : rc.rawListBuckets s.1.listCalls with
      | error e2 =>
        rw [hcr] at hgc
        simp only at hgc
        obtain ⟨rfl, -⟩ := Prod.mk.injEq .. ▸ Option.some.injEq .. ▸ hgc
        exact hQs x hx
      | ok bs =>
        rw [hcr] at hgc
        simp only at hgc
        obtain ⟨rfl, -⟩ := Prod.mk.injEq .. ▸ Option.some.injEq .. ▸ hgc
        rcases List.mem_append.mp hx with hx1 | hx2
        · exact hQs x hx1
        · obtain ⟨b0, -, rfl⟩ := List.mem_map.mp hx2
          rfl
    cases hres : p.2.result with
    | none =>
      rw [hres] at hmap
      simp only [Prod.mk.injEq] at hmap
      obtain ⟨-, h2, h3⟩ := hmap
      subst h2
      subst h3
      refine ⟨?_, fun x hx => by cases hx⟩
      intro l hl
      obtain rfl := Option.some.injEq .. ▸ hl.symm
      exact hQ
    | some e2 =>
      rw [hres] at hmap
      simp only [Prod.mk.injEq] at hmap
      obtain ⟨-, h2, h3⟩ := hmap
      subst h2
      subst h3
      exact ⟨(fun l hl => by cases hl), fun x hx => rfl⟩
  · intro ε β υ φ rc ctx rs fuel fuelR b w w1 h e hrun
    unfold getUploadURL at hrun
    obtain ⟨p, hb, hmap⟩ := Option.map_eq_some'.mp hrun
    have hQ : ∀ x, p.1.2 = some x → BeURL.ri x = b.ri := by
      refine handleOp_pres _ _ _ _ _ _ _
        (fun ho : Option (BeURL υ) => ∀ x, ho = some x → x.ri = b.ri)
        ?_ fuel w none (fun x hx => by cases hx) p hb
      intro s s1 e1 hgc hQs x hx
      unfold getUploadURLG at hgc
      cases hcr : rc.rawGetUploadURL b.b2bucket s.1.urlCalls with
      | error e2 =>
        rw [hcr] at hgc
        simp only at hgc
        obtain ⟨rfl, -⟩ := Prod.mk.injEq .. ▸ Option.some.injEq .. ▸ hgc
        exact hQs x hx
      | ok u =>
        rw [hcr] at hgc
        simp only at hgc
        obtain ⟨rfl, -⟩ := Prod.mk.injEq .. ▸ Option.some.injEq .. ▸ hgc
        obtain rfl := Option.some.injEq .. ▸ hx
        rfl
    cases hres : p.2.result with
    | none =>
      rw [hres] at hmap
      simp only [Prod.mk.injEq] at hmap
      obtain ⟨-, h2, h3⟩ := hmap
      subst h2
      subst h3
      exact ⟨hQ, fun x hx => by cases hx⟩
    | some e2 =>
      rw [hres] at hmap
      simp only [Prod.mk.injEq] at hmap
      obtain ⟨-, h2, h3⟩ := hmap
      subst h2
      subst h3
      exact ⟨(fun hu hh => by cases hh), fun x hx => rfl⟩
  · intro ε β υ φ rc ctx rs fuel fuelR u w w1 h e hrun
    unfold uploadFile at hrun
    obtain ⟨p, hb, hmap⟩ := Option.map_eq_some'.mp hrun
    have hQ : ∀ x, p.1.2 = some x → BeFile.ri x = u.ri ∧ BeFile.url x = u := by
      refine handleOp_pres _ _ _ _ _ _ _
        (fun ho : Option (BeFile υ φ) => ∀ x, ho = some x → x.ri = u.ri ∧ x.url = u)
        ?_ fuel w none (fun x hx => by cases hx) p hb
      intro s s1 e1 hgc hQs x hx
      unfold uploadFileG at hgc
      cases hcr : rc.rawUploadFile u.b2url s.1.uploadCalls with
      | error e2 =>
        rw [hcr] at hgc
        simp only at hgc
        obtain ⟨rfl, -⟩ := Prod.mk.injEq .. ▸ Option.some.injEq .. ▸ hgc
        exact hQs x hx
      | ok fl =>
        rw [hcr] at hgc
        simp only at hgc
        obtain ⟨rfl, -⟩ := Prod.mk.injEq .. ▸ Option.some.injEq .. ▸ hgc
        obtain rfl := Option.some.injEq .. ▸ hx
        exact ⟨rfl, rfl⟩
    cases hres : p.2.result with
    | none =>
      rw [hres] at hmap
      simp only [Prod.mk.injEq] at hmap
      obtain ⟨-, h2, h3⟩ := hmap
      subst h2
      subst h3
      exact ⟨hQ, fun x hx => by cases hx⟩
    | some e2 =>
      rw [hres] at hmap
      simp only [Prod.mk.injEq] at hmap
      obtain ⟨-, h2, h3⟩ := hmap
      subst h2
      subst h3
      exact ⟨(fun hf hh => by cases hh), fun x hx => rfl⟩

/-- Witness for C9: the spec's scenario — createBucket fails twice with
a transient error, then succeeds; the constructed bucket carries the
creating root's address 3 and no reauthorization occurred (zero raw
authorize calls in the final world). -/
theorem claim_C9_witness :
    ((createBucket rc9 ctx0 rsHalf 3 1 ⟨3⟩ w0).map
        (fun p => (p.1.authCalls, p.2)) = some (0, some ⟨5, 3⟩, none)) ∧
    (⟨5, 3⟩ : BeBucket ℕ).ri = 3 :=
  ⟨rfl, (claim_C9.1 ℕ ℕ ℕ ℕ rc9 ctx0 rsHalf 3 1 ⟨3⟩ w0 _ _ _ rfl).1 ⟨5, 3⟩ rfl⟩

end B2
